import Mathlib

/-!
Verification of the SurakshaAI Shield hybrid risk scoring engine and its
browser-extension glue.  Text is modelled as `List Char`; JavaScript string
operations (`replace(/\s+/g, ' ')`, `trim()`, `toLowerCase()`, `includes`,
`slice`, `join`) are embedded as executable Lean functions on character lists.
The backend Python core (services/classifier.py, models/risk_scorer.py,
utils/text_processor.py) is not part of src/, so those components are
modelled from the spec, as marked in their doc comments; everything else is
translated from the extension sources in src/.
-/

/- ===================== Text normalisation (src/unnamed/part_001, lines 48 and 57:
   `node.textContent?.replace(/\s+/g, ' ').trim()`) ===================== -/

/-- Whitespace class of the JavaScript regex `\s`, restricted to the ASCII
whitespace characters relevant for the embedded texts. -/
def isJsWs (c : Char) : Bool :=
  c == ' ' || c == '\t' || c == '\n' || c == '\r' || c == '\x0b' || c == '\x0c'

/-- Embedding of `replace(/\s+/g, ' ')`: every maximal run of whitespace is
replaced by a single space.  The boolean records whether the previous
character belonged to a whitespace run that has already emitted its space. -/
def collapseGo : Bool → List Char → List Char
  | _, [] => []
  | prevWs, c :: cs =>
    if isJsWs c then
      if prevWs then collapseGo true cs
      else ' ' :: collapseGo true cs
    else c :: collapseGo false cs

/-- Embedding of the trailing half of `String.prototype.trim`. -/
def trimEnd (l : List Char) : List Char :=
  (l.reverse.dropWhile isJsWs).reverse

/-- Embedding of `String.prototype.trim`. -/
def trimWs (l : List Char) : List Char :=
  trimEnd (l.dropWhile isJsWs)

/-- The canonical text of src/unnamed/part_001 line 48:
`text.replace(/\s+/g, ' ').trim()`. -/
def normalizeWs (l : List Char) : List Char :=
  trimWs (collapseGo false l)

/-- Maximal runs of non-whitespace characters ("words") of a text; the first
argument accumulates the current word in reverse. -/
def wordsGo : List Char → List Char → List (List Char)
  | acc, [] => if acc.isEmpty then [] else [acc.reverse]
  | acc, c :: cs =>
    if isJsWs c then
      if acc.isEmpty then wordsGo [] cs else acc.reverse :: wordsGo [] cs
    else wordsGo (c :: acc) cs

/-- The list of whitespace-separated words of a text.  Two texts differ only
in incidental whitespace exactly when their word lists agree. -/
def wordsOf (l : List Char) : List (List Char) :=
  wordsGo [] l

/-- Embedding of `Array.prototype.join(sep)` for a one-character separator. -/
def joinSep (sep : Char) : List (List Char) → List Char
  | [] => []
  | [x] => x
  | x :: y :: t => x ++ sep :: joinSep sep (y :: t)

/-- Modelled from the spec: utils/text_processor.py (the fingerprint) is
absent from src/.  Section 4.1 asks for a deterministic, collision-resistant
hash of the canonical text; an ideal such hash agrees on two texts exactly
when their canonical forms agree, so it is modelled as the canonical text
itself. -/
def fingerprint (l : List Char) : List Char :=
  normalizeWs l

/- ===================== Spec-modelled hybrid classifier core ===================== -/

/-- Modelled from the spec: the severity bands of section 4.3
(`<30 = safe`, `30-49 = low`, `50-69 = medium`, `70-89 = high`,
`>=90 = critical`); models/risk_scorer.py is absent from src/. -/
inductive Severity where
  | safe
  | low
  | medium
  | high
  | critical
  deriving DecidableEq

/-- Classification method of the spec's Classification Result. -/
inductive Method where
  | pattern_only
  | hybrid
  deriving DecidableEq

/-- Modelled from the spec: the deterministic severity-band function of
section 4.3, applied to the final fused score. -/
def getSeverity (s : Nat) : Severity :=
  if s < 30 then .safe
  else if s < 50 then .low
  else if s < 70 then .medium
  else if s < 90 then .high
  else .critical

/-- Match record of the spec's data model (section 3), restricted to the
fields the scoring algorithms read. -/
structure RiskMatch where
  phrase : List Char
  category : List Char
  risk : Nat
  deriving DecidableEq

/-- Pattern Result of the spec's data model (section 3). -/
structure PatternResult where
  score : Nat
  matchList : List RiskMatch
  severity : Severity
  deriving DecidableEq

/-- Classification Result of the spec's data model (section 3), restricted to
the fields the claims are about. -/
structure ClassificationResult where
  overall_risk : Nat
  severity : Severity
  method : Method
  ml_score : Nat
  genai_score : Option Nat
  threats : List RiskMatch
  deriving DecidableEq

/-- Modelled from the spec: the absolute difference
`diff = |contextual_score - pattern_score|` of section 4.6. -/
def scoreDiff (p c : Nat) : Nat :=
  if p ≤ c then c - p else p - c

/-- Modelled from the spec: the score fusion of section 4.6; services/classifier.py
is absent from src/.  `round(0.7 * c + 0.3 * p)` is realised on integer scores
as `(7 * c + 3 * p + 5) / 10`, rounding halves up. -/
def fuseScores (p c : Nat) : Nat :=
  if 30 < scoreDiff p c then c else (7 * c + 3 * p + 5) / 10

/-- Modelled from the spec: the gate decision of section 4.6 — invoke the
contextual stage only when the pattern score falls in `[30, 100]`. -/
def gateOpen (s : Nat) : Bool :=
  decide (30 ≤ s) && decide (s ≤ 100)

/-- Modelled from the spec: the pattern-only Classification Result returned
when the contextual stage is skipped or fails (section 4.6). -/
def patternOnlyResult (pr : PatternResult) : ClassificationResult :=
  { overall_risk := pr.score, severity := getSeverity pr.score,
    method := .pattern_only, ml_score := pr.score, genai_score := none,
    threats := pr.matchList }

/-- Modelled from the spec: the orchestration of section 4.6;
services/classifier.py is absent from src/.  The pattern stage `pm` and the
contextual gateway `gw` are parameters; `gw` returning `none` models a
timeout or provider failure.  The second component counts gateway
invocations.  The cache stages of the state machine concern no claim and are
omitted; the function models the cache-miss path. -/
def classify (pm : List Char → PatternResult) (enableGenai : Bool)
    (gw : List Char → Option Nat) (text : List Char) :
    ClassificationResult × Nat :=
  let canonical := normalizeWs text
  let pr := pm canonical
  if enableGenai && gateOpen pr.score then
    match gw canonical with
    | none => (patternOnlyResult pr, 1)
    | some c =>
      let fused := fuseScores pr.score c
      ({ overall_risk := fused, severity := getSeverity fused,
         method := .hybrid, ml_score := pr.score, genai_score := some c,
         threats := pr.matchList }, 1)
  else (patternOnlyResult pr, 0)

/- ===================== Spec-modelled Risk Scorer (section 4.3) ===================== -/

/-- Largest single-match risk of a match list (0 when empty). -/
def maxRisk (ms : List RiskMatch) : Nat :=
  (ms.map (fun m => m.risk)).foldl Nat.max 0

/-- Number of distinct categories appearing in a match list. -/
def distinctCategories (ms : List RiskMatch) : Nat :=
  ((ms.map (fun m => m.category)).dedup).length

/-- Modelled from the spec: models/risk_scorer.py is absent from src/.
Section 4.3: no matches give score 0 and severity safe; otherwise the score
is the maximum single-match risk plus a capped additive boost per additional
distinct category, clamped to [0, 100].  The boost constant and its cap are
the configurable policy constants of section 9 and are taken as parameters. -/
def riskScore (boostPer cap : Nat) (ms : List RiskMatch) : PatternResult :=
  if ms.isEmpty then { score := 0, matchList := [], severity := Severity.safe }
  else
    let score := min (maxRisk ms + min (boostPer * (distinctCategories ms - 1)) cap) 100
    { score := score, matchList := ms, severity := getSeverity score }

/- ===================== Fallback pattern matcher (src/extension/content.js,
   useFallbackDetection, lines 84-138) ===================== -/

/-- One entry of the `dangerousPatterns` object of content.js. -/
structure FallbackRule where
  phrase : List Char
  risk : Nat
  explanation : String
  deriving DecidableEq

/-- The `dangerousPatterns` catalog of content.js lines 87-119, in source
order. -/
def dangerousPatterns : List FallbackRule := [
  ⟨"password share karo".toList, 90, "असली banks कभी भी password नहीं मांगते। यह scam है।"⟩,
  ⟨"otp batao".toList, 95, "OTP केवल आप के लिए है। किसी को भी share मत करो।"⟩,
  ⟨"otp bhejo".toList, 95, "OTP केवल आप के लिए है। किसी को भी share मत करो।"⟩,
  ⟨"turant verify".toList, 75, "Urgency एक common phishing tactic है।"⟩,
  ⟨"account block hoga".toList, 80, "डराने की कोशिश है। Bank ऐसे message नहीं भेजते।"⟩,
  ⟨"cvv enter".toList, 95, "CVV कभी किसी को मत दो। यह fraud है।"⟩,
  ⟨"bank details bhejo".toList, 90, "Bank details message में मत भेजो। Scam है।"⟩,
  ⟨"lottery jeet".toList, 85, "Fake lottery scam है। कुछ भी share मत करो।"⟩,
  ⟨"police department".toList, 70, "Police message से payment नहीं मांगती। Fake है।"⟩,
  ⟨"kyc update karo".toList, 75, "Bank कभी WhatsApp पर KYC update नहीं मांगता।"⟩,
  ⟨"enter your otp".toList, 92, "No legitimate service asks for OTP via message. This is a scam."⟩,
  ⟨"share your otp".toList, 92, "Never share your OTP with anyone. This is a scam."⟩,
  ⟨"enter your password".toList, 90, "Legitimate services never ask for passwords via messages."⟩,
  ⟨"debit card details".toList, 88, "Never share card details on messaging apps. This is a scam."⟩,
  ⟨"credit card details".toList, 88, "Never share card details on messaging apps. This is a scam."⟩,
  ⟨"account will be blocked".toList, 82, "Scare tactic. Banks do not send such messages on WhatsApp."⟩,
  ⟨"account will be suspended".toList, 82, "Scare tactic. Banks do not threaten via WhatsApp."⟩,
  ⟨"permanent suspension".toList, 80, "Fear tactic used by scammers. Real banks contact you officially."⟩,
  ⟨"suspicious activity".toList, 75, "Banks do not report suspicious activity via WhatsApp messages."⟩,
  ⟨"verify your kyc".toList, 80, "KYC verification is never done through WhatsApp. This is a scam."⟩,
  ⟨"verify immediately".toList, 78, "Urgency is a classic phishing tactic. Do not act hastily."⟩,
  ⟨"within 24 hours".toList, 72, "Artificial deadline to pressure you. Real banks give proper notice."⟩,
  ⟨"click here and enter".toList, 80, "Never click suspicious links asking for personal information."⟩,
  ⟨"click here to verify".toList, 78, "Phishing link detected. Do not click unknown verification links."⟩,
  ⟨"you have won".toList, 82, "Lottery/prize scam. You cannot win contests you did not enter."⟩,
  ⟨"claim your prize".toList, 82, "Prize claim scam. Legitimate prizes do not require messaging."⟩,
  ⟨"dear customer".toList, 55, "Generic greeting often used in phishing messages."⟩,
  ⟨"sbi account".toList, 65, "SBI does not contact customers via WhatsApp for account issues."⟩,
  ⟨"unauthorized transaction".toList, 78, "Scare tactic. Contact your bank directly to verify."⟩]

/-- A threat record pushed by the fallback detection loop. -/
structure FallbackThreat where
  phrase : List Char
  risk : Nat
  explanation : String
  deriving DecidableEq

/-- The object returned by useFallbackDetection. -/
structure FallbackResult where
  overall_risk : Nat
  threats : List FallbackThreat
  deriving DecidableEq

/-- Embedding of `String.prototype.toLowerCase` on the relevant (ASCII)
alphabet. -/
def lowerChars (l : List Char) : List Char :=
  l.map Char.toLower

/-- Checks whether the first list is an initial segment of the second. -/
def leadsWith : List Char → List Char → Bool
  | [], _ => true
  | _ :: _, [] => false
  | c :: p, d :: l => c == d && leadsWith p l

/-- Embedding of `String.prototype.includes`: the needle occurs as a
contiguous segment of the haystack. -/
def containsSub (p : List Char) : List Char → Bool
  | [] => p.isEmpty
  | d :: l => leadsWith p (d :: l) || containsSub p l

/-- Embedding of `Math.max(...threats.map(t => t.risk))` (risks are
non-negative, so folding from 0 agrees with `Math.max` on a non-empty
list). -/
def fallbackMaxRisk (ts : List FallbackThreat) : Nat :=
  (ts.map (fun t => t.risk)).foldl Nat.max 0

/-- Embedding of `useFallbackDetection` of content.js lines 84-138: lower-case
the text, keep every catalog rule whose phrase occurs in it, and aggregate
the maximum risk (0 when no threat fired). -/
def useFallbackDetection (text : List Char) : FallbackResult :=
  let lowerText := lowerChars text
  let threats := (dangerousPatterns.filter
      (fun r => containsSub r.phrase lowerText)).map
      (fun r => { phrase := r.phrase, risk := r.risk,
                  explanation := r.explanation : FallbackThreat })
  { overall_risk := if 0 < threats.length then fallbackMaxRisk threats else 0,
    threats := threats }

/- ===================== Text batching (src/unnamed/part_001,
   buildTextBatches, lines 66-92) ===================== -/

/-- A text block extracted from the page; the DOM node is abstracted as an
identifier. -/
structure Block where
  node : Nat
  text : List Char
  deriving DecidableEq

/-- A batch of blocks together with their texts joined by newlines. -/
structure Batch where
  blocks : List Block
  text : List Char
  deriving DecidableEq

/-- `batches.push({ blocks: current, text: current.map(i => i.text).join('\n') })`. -/
def batchOf (cur : List Block) : Batch :=
  { blocks := cur, text := joinSep '\n' (cur.map (fun b => b.text)) }

/-- The running `currentLen` of buildTextBatches: each block contributes its
text length plus one. -/
def sumLen (cur : List Block) : Nat :=
  (cur.map (fun b => b.text.length + 1)).sum

/-- `text.length > maxChars ? text.slice(0, maxChars) : text` of
buildTextBatches. -/
def truncTo (maxChars : Nat) (t : List Char) : List Char :=
  if maxChars < t.length then t.take maxChars else t

/-- The block as pushed onto `current`: original node, truncated text. -/
def truncBlock (maxChars : Nat) (b : Block) : Block :=
  { node := b.node, text := truncTo maxChars b.text }

/-- Recursive embedding of the `blocks.forEach` loop of buildTextBatches,
carrying the `current` batch and `currentLen` accumulator. -/
def buildGo (maxChars : Nat) : List Block → List Block → Nat → List Batch
  | [], cur, _ => if cur.isEmpty then [] else [batchOf cur]
  | b :: rest, cur, curLen =>
    if b.text.isEmpty then buildGo maxChars rest cur curLen
    else
      if 0 < curLen ∧ maxChars < curLen + (truncTo maxChars b.text).length + 1 then
        batchOf cur :: buildGo maxChars rest [truncBlock maxChars b]
          ((truncTo maxChars b.text).length + 1)
      else
        buildGo maxChars rest (cur ++ [truncBlock maxChars b])
          (curLen + (truncTo maxChars b.text).length + 1)

/-- Embedding of `buildTextBatches` of src/unnamed/part_001 lines 66-92. -/
def buildTextBatches (blocks : List Block) (maxChars : Nat) : List Batch :=
  buildGo maxChars blocks [] 0

/- ===================== Threat merging (src/unnamed/part_001,
   mergeThreats, lines 256-264) ===================== -/

/-- A threat object as accumulated by the scan loop of part_001. -/
structure PageThreat where
  phrase : List Char
  category : List Char
  risk : Nat
  explanation : String
  deriving DecidableEq

/-- The string key of mergeThreats:
`(threat.phrase || '').toLowerCase() + '|' + (threat.category || '')`. -/
def threatKey (t : PageThreat) : List Char :=
  lowerChars t.phrase ++ '|' :: t.category

/-- The (lower-cased phrase, category) pair a key is meant to identify. -/
def pairKey (t : PageThreat) : List Char × List Char :=
  (lowerChars t.phrase, t.category)

/-- One iteration of the mergeThreats `forEach` body. -/
def mergeStep (allThreats : List PageThreat) (t : PageThreat) : List PageThreat :=
  if trimWs (threatKey t) = [] ∨ threatKey t = ['|'] then allThreats
  else if allThreats.any (fun saved => threatKey saved == threatKey t) then allThreats
  else allThreats ++ [t]

/-- Embedding of `mergeThreats` of src/unnamed/part_001 lines 256-264. -/
def mergeThreats (allThreats incomingThreats : List PageThreat) : List PageThreat :=
  incomingThreats.foldl mergeStep allThreats

/- ===================== Helper lemmas ===================== -/

lemma classify_gate_closed (pm : List Char → PatternResult) (en : Bool)
    (gw : List Char → Option Nat) (text : List Char)
    (h : (en && gateOpen ((pm (normalizeWs text)).score)) = false) :
    classify pm en gw text = (patternOnlyResult (pm (normalizeWs text)), 0) := by
  unfold classify
  simp only [h, Bool.false_eq_true, if_false]

lemma classify_gw_none (pm : List Char → PatternResult) (en : Bool)
    (gw : List Char → Option Nat) (text : List Char)
    (hgw : gw (normalizeWs text) = none) :
    classify pm en gw text
      = (patternOnlyResult (pm (normalizeWs text)),
         if en && gateOpen ((pm (normalizeWs text)).score) then 1 else 0) := by
  unfold classify
  rcases h : en && gateOpen ((pm (normalizeWs text)).score) with _ | _
  · simp only [h, Bool.false_eq_true, if_false]
  · simp only [h, if_true, hgw]

lemma classify_gw_some (pm : List Char → PatternResult)
    (gw : List Char → Option Nat) (text : List Char) (c : Nat)
    (hgw : gw (normalizeWs text) = some c)
    (hgate : gateOpen ((pm (normalizeWs text)).score) = true) :
    classify pm true gw text
      = ({ overall_risk := fuseScores ((pm (normalizeWs text)).score) c,
           severity := getSeverity (fuseScores ((pm (normalizeWs text)).score) c),
           method := .hybrid, ml_score := (pm (normalizeWs text)).score,
           genai_score := some c,
           threats := (pm (normalizeWs text)).matchList }, 1) := by
  unfold classify
  simp only [hgate, Bool.and_self, if_true, hgw]

lemma gateOpen_iff (s : Nat) : gateOpen s = true ↔ 30 ≤ s ∧ s ≤ 100 := by
  simp [gateOpen]

lemma gateOpen_false_of_lt (s : Nat) (h : s < 30) : gateOpen s = false := by
  cases hg : gateOpen s
  · rfl
  · exact absurd ((gateOpen_iff s).mp hg).1 (by omega)

/- ===================== Claim theorems ===================== -/

/-- C1: whenever the contextual stage ran and succeeded with score `c` on
pattern score `p`, the overall risk is `c` when `|c - p| > 30` and
`round(0.7*c + 0.3*p)` otherwise; in particular pattern 40 with contextual 80
fuses to 80, and pattern 50 with contextual 60 fuses to 57. -/
theorem c1_fusion (pm : List Char → PatternResult) (gw : List Char → Option Nat)
    (text : List Char) (c : Nat)
    (hgw : gw (normalizeWs text) = some c)
    (hgate : gateOpen ((pm (normalizeWs text)).score) = true) :
    ((30 < scoreDiff ((pm (normalizeWs text)).score) c →
        (classify pm true gw text).1.overall_risk = c) ∧
     (scoreDiff ((pm (normalizeWs text)).score) c ≤ 30 →
        (classify pm true gw text).1.overall_risk
          = (7 * c + 3 * (pm (normalizeWs text)).score + 5) / 10)) ∧
    (classify (fun _ => ⟨40, [], Severity.safe⟩) true (fun _ => some 80) []).1.overall_risk = 80 ∧
    (classify (fun _ => ⟨50, [], Severity.safe⟩) true (fun _ => some 60) []).1.overall_risk = 57 := by
  refine ⟨⟨?_, ?_⟩, by decide, by decide⟩
  · intro hd
    rw [classify_gw_some pm gw text c hgw hgate]
    simp only [fuseScores, if_pos hd]
  · intro hd
    rw [classify_gw_some pm gw text c hgw hgate]
    simp only [fuseScores]
    rw [if_neg (by omega)]

/-- Witness for C1 at pattern score 50 and contextual score 60. -/
theorem c1_fusion_witness :
    (classify (fun _ => ⟨50, [], Severity.safe⟩) true (fun _ => some 60) []).1.overall_risk
      = (7 * 60 + 3 * 50 + 5) / 10 :=
  (c1_fusion (fun _ => ⟨50, [], Severity.safe⟩) (fun _ => some 60) [] 60
    rfl (by decide)).1.2 (by decide)

/-- C2: the contextual gateway is invoked exactly when the pattern score lies
in [30, 100]; a pattern score below 30 yields a pattern_only result with zero
gateway calls. -/
theorem c2_gate (pm : List Char → PatternResult) (gw : List Char → Option Nat)
    (text : List Char) :
    ((classify pm true gw text).2 = 1 ↔
      (30 ≤ (pm (normalizeWs text)).score ∧ (pm (normalizeWs text)).score ≤ 100)) ∧
    ((pm (normalizeWs text)).score < 30 →
      (classify pm true gw text).1.method = Method.pattern_only ∧
      (classify pm true gw text).2 = 0) := by
  constructor
  · constructor
    · intro h1
      cases hg : gateOpen ((pm (normalizeWs text)).score) with
      | false =>
        rw [classify_gate_closed pm true gw text (by rw [hg, Bool.and_false])] at h1
        simp at h1
      | true => exact (gateOpen_iff _).mp hg
    · intro hin
      have hg : gateOpen ((pm (normalizeWs text)).score) = true := (gateOpen_iff _).mpr hin
      cases hc : gw (normalizeWs text) with
      | none =>
        rw [classify_gw_none pm true gw text hc]
        simp only [hg, Bool.and_self, if_true]
      | some c => rw [classify_gw_some pm gw text c hc hg]
  · intro hlt
    have hg := gateOpen_false_of_lt _ hlt
    rw [classify_gate_closed pm true gw text (by rw [hg, Bool.and_false])]
    exact ⟨rfl, rfl⟩

/-- Witness for C2 at a stub pattern stage of score 25. -/
theorem c2_gate_witness :
    (classify (fun _ => ⟨25, [], Severity.safe⟩) true (fun _ => some 99) []).1.method
        = Method.pattern_only ∧
    (classify (fun _ => ⟨25, [], Severity.safe⟩) true (fun _ => some 99) []).2 = 0 :=
  (c2_gate (fun _ => ⟨25, [], Severity.safe⟩) (fun _ => some 99) []).2 (by decide)

/-- C4: the severity bands are safe below 30, low for 30-49, medium for
50-69, high for 70-89 and critical from 90; the classifier applies this one
mapping to the overall risk of pattern-only and hybrid results alike. -/
theorem c4_severity (s : Nat) (pm : List Char → PatternResult) (en : Bool)
    (gw : List Char → Option Nat) (text : List Char) :
    (s < 30 → getSeverity s = Severity.safe) ∧
    (30 ≤ s → s ≤ 49 → getSeverity s = Severity.low) ∧
    (50 ≤ s → s ≤ 69 → getSeverity s = Severity.medium) ∧
    (70 ≤ s → s ≤ 89 → getSeverity s = Severity.high) ∧
    (90 ≤ s → getSeverity s = Severity.critical) ∧
    (classify pm en gw text).1.severity
      = getSeverity ((classify pm en gw text).1.overall_risk) := by
  refine ⟨?_, ?_, ?_, ?_, ?_, ?_⟩
  · intro h; unfold getSeverity; rw [if_pos h]
  · intro h1 h2; unfold getSeverity
    rw [if_neg (by omega), if_pos (by omega)]
  · intro h1 h2; unfold getSeverity
    rw [if_neg (by omega), if_neg (by omega), if_pos (by omega)]
  · intro h1 h2; unfold getSeverity
    rw [if_neg (by omega), if_neg (by omega), if_neg (by omega), if_pos (by omega)]
  · intro h; unfold getSeverity
    rw [if_neg (by omega), if_neg (by omega), if_neg (by omega), if_neg (by omega)]
  · cases hb : en && gateOpen ((pm (normalizeWs text)).score) with
    | false => rw [classify_gate_closed pm en gw text hb]; rfl
    | true =>
      obtain ⟨hen, hgt⟩ := Bool.and_eq_true_iff.mp hb
      subst hen
      cases hg : gw (normalizeWs text) with
      | none => rw [classify_gw_none pm true gw text hg]; rfl
      | some c => rw [classify_gw_some pm gw text c hg hgt]

/-- Witness for C4 at the band edges 29, 30, 49, 50, 69, 70, 89 and 90. -/
theorem c4_severity_witness :
    getSeverity 29 = Severity.safe ∧ getSeverity 30 = Severity.low ∧
    getSeverity 49 = Severity.low ∧ getSeverity 50 = Severity.medium ∧
    getSeverity 69 = Severity.medium ∧ getSeverity 70 = Severity.high ∧
    getSeverity 89 = Severity.high ∧ getSeverity 90 = Severity.critical :=
  ⟨(c4_severity 29 (fun _ => ⟨0, [], Severity.safe⟩) false (fun _ => none) []).1 (by decide),
   (c4_severity 30 (fun _ => ⟨0, [], Severity.safe⟩) false (fun _ => none) []).2.1
     (by decide) (by decide),
   (c4_severity 49 (fun _ => ⟨0, [], Severity.safe⟩) false (fun _ => none) []).2.1
     (by decide) (by decide),
   (c4_severity 50 (fun _ => ⟨0, [], Severity.safe⟩) false (fun _ => none) []).2.2.1
     (by decide) (by decide),
   (c4_severity 69 (fun _ => ⟨0, [], Severity.safe⟩) false (fun _ => none) []).2.2.1
     (by decide) (by decide),
   (c4_severity 70 (fun _ => ⟨0, [], Severity.safe⟩) false (fun _ => none) []).2.2.2.1
     (by decide) (by decide),
   (c4_severity 89 (fun _ => ⟨0, [], Severity.safe⟩) false (fun _ => none) []).2.2.2.1
     (by decide) (by decide),
   (c4_severity 90 (fun _ => ⟨0, [], Severity.safe⟩) false (fun _ => none) []).2.2.2.2.1
     (by decide)⟩

/-- C5: when the contextual gateway fails or times out (modelled by `none`),
the classifier still returns the well-formed pattern-only result — method
pattern_only, genai_score none, severity consistent with the score — it
never turns the failure into a request error. -/
theorem c5_fallback_safety (pm : List Char → PatternResult) (en : Bool)
    (gw : List Char → Option Nat) (text : List Char)
    (hgw : gw (normalizeWs text) = none) :
    (classify pm en gw text).1 = patternOnlyResult (pm (normalizeWs text)) ∧
    (classify pm en gw text).1.method = Method.pattern_only ∧
    (classify pm en gw text).1.genai_score = none ∧
    (classify pm en gw text).1.severity
      = getSeverity ((classify pm en gw text).1.overall_risk) := by
  have h1 : (classify pm en gw text).1 = patternOnlyResult (pm (normalizeWs text)) := by
    rw [classify_gw_none pm en gw text hgw]
  exact ⟨h1, by rw [h1]; rfl, by rw [h1]; rfl, by rw [h1]; rfl⟩

/-- Witness for C5 with a gateway stub that always fails, on a pattern score
inside the gate band. -/
theorem c5_fallback_safety_witness :
    (classify (fun _ => ⟨80, [], Severity.safe⟩) true (fun _ => none) []).1.method
      = Method.pattern_only ∧
    (classify (fun _ => ⟨80, [], Severity.safe⟩) true (fun _ => none) []).1.genai_score
      = none :=
  ⟨(c5_fallback_safety (fun _ => ⟨80, [], Severity.safe⟩) true (fun _ => none) [] rfl).2.1,
   (c5_fallback_safety (fun _ => ⟨80, [], Severity.safe⟩) true (fun _ => none) [] rfl).2.2.1⟩

/-- C7: with the contextual stage disabled, classification is deterministic:
two runs on the same input — even under different gateway behaviours — give
identical results, and the extension's fallback detector likewise. -/
theorem c7_determinism (pm : List Char → PatternResult)
    (gw gw2 : List Char → Option Nat) (t1 t2 : List Char) (h : t1 = t2) :
    classify pm false gw t1 = classify pm false gw2 t2 ∧
    useFallbackDetection t1 = useFallbackDetection t2 := by
  subst h
  refine ⟨?_, rfl⟩
  rw [classify_gate_closed pm false gw t1 rfl,
    classify_gate_closed pm false gw2 t1 rfl]

lemma dedup_of_all_eq {α : Type} [DecidableEq α] (c : α) (l : List α)
    (hne : l ≠ []) (hall : ∀ x ∈ l, x = c) : l.dedup = [c] := by
  induction l with
  | nil => exact absurd rfl hne
  | cons x xs ih =>
    have hx : x = c := hall x (List.mem_cons_self x xs)
    subst hx
    rcases eq_or_ne xs [] with h | h
    · subst h; rfl
    · have hxs : xs.dedup = [x] := ih h (fun y hy => hall y (List.mem_cons_of_mem _ hy))
      have hmem : x ∈ xs := by
        rcases xs with _ | ⟨y, ys⟩
        · exact absurd rfl h
        · have hy : y = x := hall y (by simp)
          subst hy
          exact List.mem_cons_self y ys
      rw [List.dedup_cons_of_mem hmem, hxs]

lemma riskScore_of_ne (boostPer cap : Nat) (ms : List RiskMatch) (h : ms ≠ []) :
    riskScore boostPer cap ms
      = { score := min (maxRisk ms + min (boostPer * (distinctCategories ms - 1)) cap) 100,
          matchList := ms,
          severity := getSeverity
            (min (maxRisk ms + min (boostPer * (distinctCategories ms - 1)) cap) 100) } := by
  unfold riskScore
  rw [if_neg]
  intro hcon
  exact h (List.isEmpty_iff.mp hcon)

/-- C3: the spec-modelled risk scorer gives score 0 and severity safe on no
matches; otherwise the score is the maximum single-match risk plus the capped
multi-category boost, clamped to 100 — so the score never exceeds 100 nor
the maximum risk plus the cap, and matches of a single category never score
above that category's maximum risk. -/
theorem c3_scorer (boostPer cap : Nat) (ms : List RiskMatch) :
    (ms = [] → (riskScore boostPer cap ms).score = 0 ∧
       (riskScore boostPer cap ms).severity = Severity.safe) ∧
    (riskScore boostPer cap ms).score ≤ 100 ∧
    (riskScore boostPer cap ms).score ≤ maxRisk ms + cap ∧
    (ms ≠ [] → (riskScore boostPer cap ms).score
       = min (maxRisk ms + min (boostPer * (distinctCategories ms - 1)) cap) 100) ∧
    (∀ cat, (∀ m ∈ ms, m.category = cat) →
       (riskScore boostPer cap ms).score ≤ maxRisk ms) := by
  rcases eq_or_ne ms [] with hms | hms
  · subst hms
    refine ⟨fun _ => ⟨rfl, rfl⟩, by simp [riskScore], by simp [riskScore], ?_, ?_⟩
    · intro h; exact absurd rfl h
    · intro cat _; simp [riskScore, maxRisk]
  · have hsc : (riskScore boostPer cap ms).score
        = min (maxRisk ms + min (boostPer * (distinctCategories ms - 1)) cap) 100 := by
      rw [riskScore_of_ne boostPer cap ms hms]
    refine ⟨fun h => absurd h hms, ?_, ?_, fun _ => hsc, ?_⟩
    · rw [hsc]
      exact Nat.min_le_right _ _
    · rw [hsc]
      have h1 : min (boostPer * (distinctCategories ms - 1)) cap ≤ cap :=
        Nat.min_le_right _ _
      have h2 := Nat.min_le_left
        (maxRisk ms + min (boostPer * (distinctCategories ms - 1)) cap) 100
      omega
    · intro cat hall
      have hone : distinctCategories ms = 1 := by
        unfold distinctCategories
        rw [dedup_of_all_eq cat]
        · rfl
        · intro hcon
          exact hms (List.map_eq_nil_iff.mp hcon)
        · intro x hx
          obtain ⟨m, hm, rfl⟩ := List.mem_map.mp hx
          exact hall m hm
      rw [hsc, hone]
      simp only [Nat.sub_self, Nat.mul_zero, Nat.zero_min, Nat.add_zero]
      exact Nat.min_le_left _ _

/-- Witness for C3: the empty match list, and two matches of one category. -/
theorem c3_scorer_witness :
    ((riskScore 5 15 []).score = 0 ∧ (riskScore 5 15 []).severity = Severity.safe) ∧
    (riskScore 5 15 [⟨"otp batao".toList, "credential_request".toList, 95⟩,
                     ⟨"otp bhejo".toList, "credential_request".toList, 95⟩]).score
      ≤ maxRisk [⟨"otp batao".toList, "credential_request".toList, 95⟩,
                 ⟨"otp bhejo".toList, "credential_request".toList, 95⟩] :=
  ⟨(c3_scorer 5 15 []).1 rfl,
   (c3_scorer 5 15 [⟨"otp batao".toList, "credential_request".toList, 95⟩,
                    ⟨"otp bhejo".toList, "credential_request".toList, 95⟩]).2.2.2.2
     ("credential_request".toList) (by decide)⟩

lemma leadsWith_iff (p : List Char) : ∀ l : List Char,
    (leadsWith p l = true ↔ ∃ t, l = p ++ t) := by
  induction p with
  | nil =>
    intro l
    simp [leadsWith]
  | cons c p ih =>
    intro l
    cases l with
    | nil =>
      simp only [leadsWith, Bool.false_eq_true, false_iff]
      rintro ⟨t, ht⟩
      exact List.cons_ne_nil c (p ++ t) ht.symm
    | cons d l =>
      simp only [leadsWith, Bool.and_eq_true, beq_iff_eq, ih l]
      constructor
      · rintro ⟨rfl, t, rfl⟩
        exact ⟨t, rfl⟩
      · rintro ⟨t, ht⟩
        injection ht with h1 h2
        exact ⟨h1.symm, t, h2⟩

lemma containsSub_iff (p : List Char) : ∀ l : List Char,
    (containsSub p l = true ↔ ∃ s t, l = s ++ p ++ t) := by
  intro l
  induction l with
  | nil =>
    simp only [containsSub]
    constructor
    · intro h
      have hp : p = [] := List.isEmpty_iff.mp h
      subst hp
      exact ⟨[], [], rfl⟩
    · rintro ⟨s, t, hst⟩
      have h0 : s ++ (p ++ t) = [] := by
        rw [← List.append_assoc]
        exact hst.symm
      obtain ⟨hs, hpt⟩ := List.append_eq_nil.mp h0
      obtain ⟨hp, ht⟩ := List.append_eq_nil.mp hpt
      subst hp
      rfl
  | cons d l ih =>
    simp only [containsSub, Bool.or_eq_true, ih, leadsWith_iff]
    constructor
    · rintro (⟨t, ht⟩ | ⟨s, t, hst⟩)
      · exact ⟨[], t, ht⟩
      · exact ⟨d :: s, t, by rw [hst]; rfl⟩
    · rintro ⟨s, t, hst⟩
      cases s with
      | nil => exact Or.inl ⟨t, by simpa using hst⟩
      | cons a s =>
        injection hst with h1 h2
        exact Or.inr ⟨s, t, h2⟩

lemma useFallbackDetection_threats (text : List Char) :
    (useFallbackDetection text).threats
      = (dangerousPatterns.filter
          (fun r => containsSub r.phrase (lowerChars text))).map
          (fun r => { phrase := r.phrase, risk := r.risk,
                      explanation := r.explanation : FallbackThreat }) := rfl

lemma fallbackThreat_inj : Function.Injective
    (fun r : FallbackRule =>
      ({ phrase := r.phrase, risk := r.risk,
         explanation := r.explanation } : FallbackThreat)) := by
  intro a b h
  cases a
  cases b
  simp only [FallbackThreat.mk.injEq] at h
  obtain ⟨h1, h2, h3⟩ := h
  subst h1
  subst h2
  subst h3
  rfl

/-- C6: a catalog rule fires exactly when its (lower-case) phrase occurs as a
contiguous substring of the lower-cased text, every firing rule contributes
its match to the returned list, and nothing beyond exact duplicates is
removed: a firing rule appears exactly once. -/
theorem c6_matcher (text : List Char) (r : FallbackRule)
    (hr : r ∈ dangerousPatterns) :
    (({ phrase := r.phrase, risk := r.risk,
        explanation := r.explanation } : FallbackThreat)
        ∈ (useFallbackDetection text).threats ↔
      ∃ s t, lowerChars text = s ++ r.phrase ++ t) ∧
    ((∃ s t, lowerChars text = s ++ r.phrase ++ t) →
      ((useFallbackDetection text).threats.count
          { phrase := r.phrase, risk := r.risk, explanation := r.explanation }) = 1) := by
  constructor
  · rw [useFallbackDetection_threats]
    constructor
    · intro hmem
      obtain ⟨r2, hr2, heq⟩ := List.mem_map.mp hmem
      obtain ⟨_, hfires⟩ := List.mem_filter.mp hr2
      have hrr : r2 = r := fallbackThreat_inj heq
      subst hrr
      exact (containsSub_iff r2.phrase (lowerChars text)).mp hfires
    · intro hsub
      refine List.mem_map.mpr ⟨r, List.mem_filter.mpr ⟨hr, ?_⟩, rfl⟩
      exact (containsSub_iff r.phrase (lowerChars text)).mpr hsub
  · intro hsub
    rw [useFallbackDetection_threats]
    rw [List.count_map_of_injective _ _ fallbackThreat_inj r]
    have hcf := @List.count_filter FallbackRule _ _
      (fun r2 => containsSub r2.phrase (lowerChars text)) r dangerousPatterns
      ((containsSub_iff r.phrase (lowerChars text)).mpr hsub)
    rw [hcf]
    exact List.count_eq_one_of_mem (by decide) hr

lemma trimEnd_eq_nil_iff (l : List Char) :
    trimEnd l = [] ↔ l.reverse.dropWhile isJsWs = [] := by
  unfold trimEnd
  exact List.reverse_eq_nil_iff

lemma trimEnd_cons_of_eq (c : Char) (l : List Char) (h : trimEnd l = []) :
    trimEnd (c :: l) = if isJsWs c then [] else [c] := by
  unfold trimEnd
  rw [List.reverse_cons, List.dropWhile_append]
  rw [(trimEnd_eq_nil_iff l).mp h]
  simp only [List.isEmpty_nil, if_true]
  rw [List.dropWhile_cons]
  by_cases hc : isJsWs c
  · simp [hc]
  · simp [hc]

lemma trimEnd_cons_of_ne (c : Char) (l : List Char) (h : trimEnd l ≠ []) :
    trimEnd (c :: l) = c :: trimEnd l := by
  unfold trimEnd
  rw [List.reverse_cons, List.dropWhile_append]
  have hne : l.reverse.dropWhile isJsWs ≠ [] := fun hcon =>
    h ((trimEnd_eq_nil_iff l).mpr hcon)
  rw [if_neg (by simpa [List.isEmpty_iff] using hne)]
  rw [List.reverse_append]
  rfl

lemma trimEnd_cons_not_ws (c : Char) (l : List Char) (hc : isJsWs c = false) :
    trimEnd (c :: l) = c :: trimEnd l := by
  by_cases h : trimEnd l = []
  · rw [trimEnd_cons_of_eq c l h, h, if_neg (by simp [hc])]
  · exact trimEnd_cons_of_ne c l h

lemma wordsGo_forall_ne_nil : ∀ (l acc : List Char), ∀ w ∈ wordsGo acc l, w ≠ [] := by
  intro l
  induction l with
  | nil =>
    intro acc w hw
    by_cases h : acc.isEmpty
    · simp [wordsGo, h] at hw
    · simp only [wordsGo, h, Bool.false_eq_true, if_false, List.mem_singleton] at hw
      subst hw
      simp only [ne_eq, List.reverse_eq_nil_iff]
      exact fun hcon => h (by simp [hcon])
  | cons c cs ih =>
    intro acc w hw
    by_cases hc : isJsWs c
    · by_cases h : acc.isEmpty
      · simp only [wordsGo, hc, if_true, h] at hw
        exact ih [] w hw
      · simp only [wordsGo, hc, if_true, h, Bool.false_eq_true, if_false,
          List.mem_cons] at hw
        rcases hw with hw | hw
        · subst hw
          simp only [ne_eq, List.reverse_eq_nil_iff]
          exact fun hcon => h (by simp [hcon])
        · exact ih [] w hw
    · simp only [wordsGo, hc, Bool.false_eq_true, if_false] at hw
      exact ih (c :: acc) w hw

lemma joinSep_eq_nil_iff (sep : Char) (ws : List (List Char))
    (hne : ∀ w ∈ ws, w ≠ []) : joinSep sep ws = [] ↔ ws = [] := by
  cases ws with
  | nil => simp [joinSep]
  | cons x t =>
    cases t with
    | nil =>
      simp only [joinSep, List.cons_ne_nil, iff_false]
      exact hne x (by simp)
    | cons y t2 => simp [joinSep]

lemma collapse_words (l : List Char) :
    (joinSep ' ' (wordsGo [] l) = trimEnd (collapseGo true l)) ∧
    (∀ (c : Char) (acc : List Char),
      joinSep ' ' (wordsGo (c :: acc) l)
        = (c :: acc).reverse ++ trimEnd (collapseGo false l)) := by
  induction l with
  | nil =>
    constructor
    · rfl
    · intro c acc
      simp [wordsGo, joinSep, collapseGo, trimEnd]
  | cons d l ih =>
    obtain ⟨ih1, ih2⟩ := ih
    constructor
    · by_cases hd : isJsWs d
      · simp only [wordsGo, hd, if_true, List.isEmpty_nil, collapseGo]
        exact ih1
      · simp only [wordsGo, hd, Bool.false_eq_true, if_false, collapseGo]
        rw [ih2 d []]
        rw [trimEnd_cons_not_ws d _ (by simp [hd])]
        rfl
    · intro c acc
      by_cases hd : isJsWs d
      · simp only [wordsGo, hd, if_true, List.isEmpty_cons, Bool.false_eq_true,
          if_false, collapseGo]
        rcases hwl : wordsGo [] l with _ | ⟨w, ws2⟩
        · have hY : trimEnd (collapseGo true l) = [] := by
            rw [← ih1, hwl]
            rfl
          rw [trimEnd_cons_of_eq _ _ hY]
          simp only [isJsWs, if_true]
          simp [joinSep]
        · have hY : trimEnd (collapseGo true l) ≠ [] := by
            rw [← ih1, hwl]
            intro hcon
            rw [joinSep_eq_nil_iff ' ' (w :: ws2)
              (by rw [← hwl]; exact wordsGo_forall_ne_nil l [])] at hcon
            exact List.cons_ne_nil w ws2 hcon
          rw [trimEnd_cons_of_ne _ _ hY]
          have hj : joinSep ' ' ((c :: acc).reverse :: w :: ws2)
              = (c :: acc).reverse ++ ' ' :: joinSep ' ' (w :: ws2) := rfl
          rw [hj, ← hwl, ih1]
      · simp only [wordsGo, hd, Bool.false_eq_true, if_false, collapseGo]
        rw [ih2 d (c :: acc)]
        rw [trimEnd_cons_not_ws d _ (by simp [hd])]
        simp

lemma dropWhile_collapse_true (l : List Char) :
    (collapseGo true l).dropWhile isJsWs = collapseGo true l := by
  induction l with
  | nil => rfl
  | cons c cs ih =>
    by_cases hc : isJsWs c
    · simp only [collapseGo, hc, if_true]
      exact ih
    · simp only [collapseGo, hc, Bool.false_eq_true, if_false]
      rw [List.dropWhile_cons, if_neg (by simp [hc])]

lemma collapse_false_dropWhile (l : List Char) :
    (collapseGo false l).dropWhile isJsWs = collapseGo true l := by
  cases l with
  | nil => rfl
  | cons c cs =>
    by_cases hc : isJsWs c
    · simp only [collapseGo, hc, if_true, Bool.false_eq_true, if_false]
      rw [List.dropWhile_cons, if_pos (by simp [isJsWs])]
      exact dropWhile_collapse_true cs
    · simp only [collapseGo, hc, Bool.false_eq_true, if_false]
      rw [List.dropWhile_cons, if_neg (by simp [hc])]

lemma normalizeWs_eq_joinWords (l : List Char) :
    normalizeWs l = joinSep ' ' (wordsOf l) := by
  unfold normalizeWs trimWs wordsOf
  rw [collapse_false_dropWhile]
  exact (collapse_words l).1.symm

/-- C8: texts with the same word decomposition — texts differing only in
incidental whitespace — have the same canonical form, hence the same
fingerprint; the fingerprint separates any two texts whose canonical forms
differ, so the spec's concrete tests hold: collapsing makes `a  b` and `a b`
agree, while the case-differing `A   b` and `a b` fingerprint differently. -/
theorem c8_normalize (a b : List Char) :
    (wordsOf a = wordsOf b →
      normalizeWs a = normalizeWs b ∧ fingerprint a = fingerprint b) ∧
    (normalizeWs a ≠ normalizeWs b → fingerprint a ≠ fingerprint b) ∧
    normalizeWs ("a  b".toList) = normalizeWs ("a b".toList) ∧
    fingerprint ("A   b".toList) ≠ fingerprint ("a b".toList) := by
  refine ⟨?_, ?_, by decide, by decide⟩
  · intro hw
    have h : normalizeWs a = normalizeWs b := by
      rw [normalizeWs_eq_joinWords, normalizeWs_eq_joinWords, hw]
    exact ⟨h, h⟩
  · intro h
    exact h

/-- Witness for C8 on the spec's whitespace-collapsing test pair. -/
theorem c8_normalize_witness :
    normalizeWs ("a  b".toList) = normalizeWs ("a b".toList) ∧
    fingerprint ("a  b".toList) = fingerprint ("a b".toList) :=
  (c8_normalize ("a  b".toList) ("a b".toList)).1 (by decide)

/-- Witness for C6: the first catalog rule on a text containing its phrase. -/
theorem c6_matcher_witness :
    (({ phrase := "password share karo".toList, risk := 90,
        explanation := "असली banks कभी भी password नहीं मांगते। यह scam है।" } : FallbackThreat)
      ∈ (useFallbackDetection ("URGENT password share karo".toList)).threats) ∧
    ((useFallbackDetection ("URGENT password share karo".toList)).threats.count
        { phrase := "password share karo".toList, risk := 90,
          explanation := "असली banks कभी भी password नहीं मांगते। यह scam है।" } = 1) :=
  ⟨(c6_matcher ("URGENT password share karo".toList)
      ⟨"password share karo".toList, 90,
       "असली banks कभी भी password नहीं मांगते। यह scam है।"⟩ (by decide)).1.mpr
      ⟨"urgent ".toList, [], by decide⟩,
   (c6_matcher ("URGENT password share karo".toList)
      ⟨"password share karo".toList, 90,
       "असली banks कभी भी password नहीं मांगते। यह scam है।"⟩ (by decide)).2
      ⟨"urgent ".toList, [], by decide⟩⟩

lemma joinSep_length (sep : Char) : ∀ l : List (List Char),
    (joinSep sep l).length = (l.map List.length).sum + (l.length - 1)
  | [] => rfl
  | [x] => by simp [joinSep]
  | x :: y :: t => by
    have ih := joinSep_length sep (y :: t)
    simp only [joinSep, List.length_append, List.length_cons, List.map_cons,
      List.sum_cons] at *
    omega

lemma sumLen_eq (cur : List Block) :
    sumLen cur = (cur.map (fun b => b.text.length)).sum + cur.length := by
  induction cur with
  | nil => rfl
  | cons b t ih =>
    simp only [sumLen, List.map_cons, List.sum_cons, List.length_cons] at *
    omega

lemma batchOf_text_length (cur : List Block) :
    (batchOf cur).text.length = sumLen cur - 1 := by
  cases cur with
  | nil => rfl
  | cons b t =>
    show (joinSep '\n' ((b :: t).map (fun x => x.text))).length = sumLen (b :: t) - 1
    rw [joinSep_length, sumLen_eq, List.map_map]
    simp only [List.length_map, List.length_cons]
    have hmm : (List.map (List.length ∘ fun x => x.text) (b :: t)).sum
        = (List.map (fun x => x.text.length) (b :: t)).sum := rfl
    rw [hmm]
    omega

lemma sumLen_append (l : List Block) (b : Block) :
    sumLen (l ++ [b]) = sumLen l + (b.text.length + 1) := by
  simp [sumLen]

lemma truncTo_eq_take (mc : Nat) (t : List Char) : truncTo mc t = t.take mc := by
  unfold truncTo
  split
  · rfl
  · rename_i h
    exact (List.take_of_length_le (by omega)).symm

lemma truncTo_length_le (mc : Nat) (t : List Char) : (truncTo mc t).length ≤ mc := by
  rw [truncTo_eq_take, List.length_take]
  exact Nat.min_le_left _ _

lemma truncBlock_text (mc : Nat) (b : Block) :
    (truncBlock mc b).text = truncTo mc b.text := rfl

lemma truncBlock_eq (mc : Nat) (b : Block) :
    truncBlock mc b = { node := b.node, text := b.text.take mc } := by
  unfold truncBlock
  rw [truncTo_eq_take]

lemma buildGo_nil (maxChars : Nat) (cur : List Block) (curLen : Nat) :
    buildGo maxChars [] cur curLen = if cur.isEmpty then [] else [batchOf cur] := rfl

lemma buildGo_cons (maxChars : Nat) (b : Block) (rest cur : List Block) (curLen : Nat) :
    buildGo maxChars (b :: rest) cur curLen
      = if b.text.isEmpty then buildGo maxChars rest cur curLen
        else
          if 0 < curLen ∧ maxChars < curLen + (truncTo maxChars b.text).length + 1 then
            batchOf cur :: buildGo maxChars rest [truncBlock maxChars b]
              ((truncTo maxChars b.text).length + 1)
          else
            buildGo maxChars rest (cur ++ [truncBlock maxChars b])
              (curLen + (truncTo maxChars b.text).length + 1) := rfl

lemma buildGo_spec (maxChars : Nat) : ∀ (blocks cur : List Block) (curLen : Nat),
    curLen = sumLen cur →
    (∀ b ∈ cur, b.text.length ≤ maxChars) →
    curLen ≤ maxChars + 1 →
    (∀ batch ∈ buildGo maxChars blocks cur curLen,
        batch.text.length ≤ maxChars ∧ ∀ b ∈ batch.blocks, b.text.length ≤ maxChars) ∧
    ((buildGo maxChars blocks cur curLen).map (fun bt => bt.blocks)).flatten
      = cur ++ (blocks.filter (fun b => !b.text.isEmpty)).map (truncBlock maxChars) := by
  intro blocks
  induction blocks with
  | nil =>
    intro cur curLen hlen hbound hcap
    rw [buildGo_nil]
    by_cases hc : cur.isEmpty
    · have hnil : cur = [] := List.isEmpty_iff.mp hc
      subst hnil
      simp
    · rw [if_neg hc]
      constructor
      · intro batch hb
        rw [List.mem_singleton] at hb
        subst hb
        refine ⟨?_, hbound⟩
        rw [batchOf_text_length, ← hlen]
        omega
      · simp [batchOf]
  | cons b rest ih =>
    intro cur curLen hlen hbound hcap
    rw [buildGo_cons]
    by_cases hemp : b.text.isEmpty
    · rw [if_pos hemp]
      obtain ⟨ihA, ihB⟩ := ih cur curLen hlen hbound hcap
      refine ⟨ihA, ?_⟩
      rw [ihB, List.filter_cons, hemp]
      rfl
    · rw [if_neg hemp]
      have hemp2 : b.text.isEmpty = false := by
        revert hemp
        cases b.text.isEmpty <;> simp
      have hsafe_le : (truncTo maxChars b.text).length ≤ maxChars :=
        truncTo_length_le maxChars b.text
      by_cases hflush : 0 < curLen ∧ maxChars < curLen + (truncTo maxChars b.text).length + 1
      · rw [if_pos hflush]
        obtain ⟨ihA, ihB⟩ := ih [truncBlock maxChars b]
          ((truncTo maxChars b.text).length + 1)
          (by simp [sumLen, truncBlock])
          (by
            intro b2 hb2
            rw [List.mem_singleton] at hb2
            subst hb2
            exact hsafe_le)
          (by omega)
        constructor
        · intro batch hb
          rcases List.mem_cons.mp hb with hb | hb
          · subst hb
            refine ⟨?_, hbound⟩
            rw [batchOf_text_length, ← hlen]
            omega
          · exact ihA batch hb
        · rw [List.map_cons, List.flatten_cons, ihB, List.filter_cons]
          simp only [hemp2, Bool.not_false, if_true, List.map_cons]
          simp [batchOf]
      · rw [if_neg hflush]
        obtain ⟨ihA, ihB⟩ := ih (cur ++ [truncBlock maxChars b])
          (curLen + (truncTo maxChars b.text).length + 1)
          (by rw [sumLen_append, ← hlen, truncBlock_text]; omega)
          (by
            intro b2 hb2
            rcases List.mem_append.mp hb2 with hb2 | hb2
            · exact hbound b2 hb2
            · rw [List.mem_singleton] at hb2
              subst hb2
              exact hsafe_le)
          (by omega)
        refine ⟨ihA, ?_⟩
        rw [ihB, List.filter_cons]
        simp only [hemp2, Bool.not_false, if_true, List.map_cons]
        rw [List.append_assoc]
        rfl

/-- C9: every batch built by buildTextBatches has joined text of length at
most maxChars and only blocks truncated to maxChars, and the batches'
blocks, concatenated, are exactly the non-empty input blocks in order with
their texts truncated to maxChars. -/
theorem c9_batches (blocks : List Block) (maxChars : Nat) (hmc : 1 ≤ maxChars) :
    (∀ batch ∈ buildTextBatches blocks maxChars,
        batch.text.length ≤ maxChars ∧ ∀ b ∈ batch.blocks, b.text.length ≤ maxChars) ∧
    ((buildTextBatches blocks maxChars).map (fun bt => bt.blocks)).flatten
      = (blocks.filter (fun b => !b.text.isEmpty)).map
          (fun b => { node := b.node, text := b.text.take maxChars }) := by
  have h := buildGo_spec maxChars blocks [] 0 rfl (by intro b2 hb2; simp at hb2) (by omega)
  have hfun : (blocks.filter (fun b => !b.text.isEmpty)).map (truncBlock maxChars)
      = (blocks.filter (fun b => !b.text.isEmpty)).map
          (fun b => { node := b.node, text := b.text.take maxChars }) :=
    List.map_congr_left (fun b2 _ => truncBlock_eq maxChars b2)
  refine ⟨h.1, ?_⟩
  have h2 := h.2
  rw [hfun] at h2
  simpa using h2

/-- Witness for C9 on three blocks (one empty, one overlong) with
maxChars 5. -/
theorem c9_batches_witness :
    (∀ batch ∈ buildTextBatches
        ([⟨0, "abc".toList⟩, ⟨1, []⟩, ⟨2, "defgh".toList⟩] : List Block) 5,
        batch.text.length ≤ 5 ∧ ∀ b ∈ batch.blocks, b.text.length ≤ 5) ∧
    ((buildTextBatches ([⟨0, "abc".toList⟩, ⟨1, []⟩, ⟨2, "defgh".toList⟩] : List Block) 5).map
        (fun bt => bt.blocks)).flatten
      = (([⟨0, "abc".toList⟩, ⟨1, []⟩, ⟨2, "defgh".toList⟩] : List Block).filter
          (fun b => !b.text.isEmpty)).map
          (fun b => { node := b.node, text := b.text.take 5 }) :=
  c9_batches ([⟨0, "abc".toList⟩, ⟨1, []⟩, ⟨2, "defgh".toList⟩] : List Block) 5 (by decide)

lemma threatKey_of_pairKey (s t : PageThreat) (h : pairKey s = pairKey t) :
    threatKey s = threatKey t := by
  simp only [pairKey, Prod.mk.injEq] at h
  unfold threatKey
  rw [h.1, h.2]

lemma threatKey_length (t : PageThreat) :
    (threatKey t).length = t.phrase.length + t.category.length + 1 := by
  unfold threatKey lowerChars
  rw [List.length_append, List.length_map, List.length_cons]
  omega

lemma threatKey_eq_pipe_iff (t : PageThreat) :
    threatKey t = ['|'] ↔ (t.phrase = [] ∧ t.category = []) := by
  constructor
  · intro h
    have hl := congrArg List.length h
    rw [threatKey_length] at hl
    simp only [List.length_singleton] at hl
    constructor
    · exact List.eq_nil_of_length_eq_zero (by omega)
    · exact List.eq_nil_of_length_eq_zero (by omega)
  · rintro ⟨h1, h2⟩
    simp [threatKey, lowerChars, h1, h2]

lemma mergeThreats_nil (acc : List PageThreat) : mergeThreats acc [] = acc := rfl

lemma mergeThreats_cons (acc : List PageThreat) (t : PageThreat)
    (rest : List PageThreat) :
    mergeThreats acc (t :: rest) = mergeThreats (mergeStep acc t) rest := rfl

lemma mergeThreats_spec : ∀ (inc acc : List PageThreat),
    (∃ app, mergeThreats acc inc = acc ++ app ∧
      (∀ t ∈ app, t ∈ inc) ∧
      (∀ t ∈ app, ¬(t.phrase = [] ∧ t.category = [])) ∧
      (∀ t ∈ app, ∀ s ∈ acc, pairKey s ≠ pairKey t)) ∧
    ((acc.map pairKey).Nodup → ((mergeThreats acc inc).map pairKey).Nodup) := by
  intro inc
  induction inc with
  | nil =>
    intro acc
    exact ⟨⟨[], by simp [mergeThreats_nil], by simp, by simp, by simp⟩,
      by rw [mergeThreats_nil]; exact id⟩
  | cons t rest ih =>
    intro acc
    rw [mergeThreats_cons]
    unfold mergeStep
    by_cases h1 : trimWs (threatKey t) = [] ∨ threatKey t = ['|']
    · rw [if_pos h1]
      obtain ⟨⟨app, happ, hmem, hne, hdist⟩, hnod⟩ := ih acc
      exact ⟨⟨app, happ, fun u hu => List.mem_cons_of_mem t (hmem u hu), hne, hdist⟩,
        hnod⟩
    · rw [if_neg h1]
      by_cases h2 : acc.any (fun saved => threatKey saved == threatKey t) = true
      · rw [if_pos h2]
        obtain ⟨⟨app, happ, hmem, hne, hdist⟩, hnod⟩ := ih acc
        exact ⟨⟨app, happ, fun u hu => List.mem_cons_of_mem t (hmem u hu), hne, hdist⟩,
          hnod⟩
      · rw [if_neg h2]
        obtain ⟨⟨app, happ, hmem, hne, hdist⟩, hnod⟩ := ih (acc ++ [t])
        have hkey_ne : ∀ s ∈ acc, threatKey s ≠ threatKey t := by
          intro s hs hcon
          apply h2
          rw [List.any_eq_true]
          exact ⟨s, hs, by simp [hcon]⟩
        have hpair_ne : ∀ s ∈ acc, pairKey s ≠ pairKey t := by
          intro s hs hcon
          exact hkey_ne s hs (threatKey_of_pairKey s t hcon)
        constructor
        · refine ⟨t :: app, ?_, ?_, ?_, ?_⟩
          · rw [happ, List.append_assoc]
            rfl
          · intro u hu
            rcases List.mem_cons.mp hu with hu | hu
            · subst hu
              exact List.mem_cons_self u rest
            · exact List.mem_cons_of_mem t (hmem u hu)
          · intro u hu
            rcases List.mem_cons.mp hu with hu | hu
            · subst hu
              intro hcon
              exact h1 (Or.inr ((threatKey_eq_pipe_iff u).mpr hcon))
            · exact hne u hu
          · intro u hu s hs
            rcases List.mem_cons.mp hu with hu | hu
            · subst hu
              exact hpair_ne s hs
            · exact hdist u hu s (List.mem_append_left _ hs)
        · intro hnodup
          apply hnod
          rw [List.map_append, List.nodup_append]
          refine ⟨hnodup, by simp, ?_⟩
          intro x hx hx2
          simp only [List.map_cons, List.map_nil, List.mem_singleton] at hx2
          subst hx2
          obtain ⟨s, hs, hps⟩ := List.mem_map.mp hx
          exact hpair_ne s hs hps

/-- C10: mergeThreats appends an incoming threat only when no stored threat
shares its (lower-cased phrase, category) key, skips any incoming threat
whose phrase and category are both empty, never removes or reorders existing
entries (the accumulator is a prefix of the result and only incoming threats
are appended), and preserves pairwise distinctness of the stored keys. -/
theorem c10_merge (acc inc : List PageThreat) :
    (∃ app, mergeThreats acc inc = acc ++ app ∧
      (∀ t ∈ app, t ∈ inc) ∧
      (∀ t ∈ app, ¬(t.phrase = [] ∧ t.category = [])) ∧
      (∀ t ∈ app, ∀ s ∈ acc, pairKey s ≠ pairKey t)) ∧
    ((acc.map pairKey).Nodup → ((mergeThreats acc inc).map pairKey).Nodup) :=
  mergeThreats_spec inc acc

/-- Witness for C10: an accumulator with one threat and an incoming list
holding a duplicate key (differing only in case), an all-empty threat and a
fresh threat. -/
theorem c10_merge_witness :
    ((mergeThreats
        [⟨"otp batao".toList, "credential_request".toList, 95, "e1"⟩]
        [⟨"OTP BATAO".toList, "credential_request".toList, 95, "e2"⟩,
         ⟨[], [], 0, ""⟩,
         ⟨"kyc update karo".toList, "kyc".toList, 75, "e3"⟩]).map pairKey).Nodup ∧
    (∃ app, mergeThreats
        [⟨"otp batao".toList, "credential_request".toList, 95, "e1"⟩]
        [⟨"OTP BATAO".toList, "credential_request".toList, 95, "e2"⟩,
         ⟨[], [], 0, ""⟩,
         ⟨"kyc update karo".toList, "kyc".toList, 75, "e3"⟩]
        = [⟨"otp batao".toList, "credential_request".toList, 95, "e1"⟩] ++ app ∧
      (∀ t ∈ app, t ∈ [⟨"OTP BATAO".toList, "credential_request".toList, 95, "e2"⟩,
         ⟨[], [], 0, ""⟩,
         (⟨"kyc update karo".toList, "kyc".toList, 75, "e3"⟩ : PageThreat)]) ∧
      (∀ t ∈ app, ¬(t.phrase = [] ∧ t.category = [])) ∧
      (∀ t ∈ app, ∀ s ∈
        [(⟨"otp batao".toList, "credential_request".toList, 95, "e1"⟩ : PageThreat)],
        pairKey s ≠ pairKey t)) :=
  ⟨(c10_merge
      [⟨"otp batao".toList, "credential_request".toList, 95, "e1"⟩]
      [⟨"OTP BATAO".toList, "credential_request".toList, 95, "e2"⟩,
       ⟨[], [], 0, ""⟩,
       ⟨"kyc update karo".toList, "kyc".toList, 75, "e3"⟩]).2 (by decide),
   (c10_merge
      [⟨"otp batao".toList, "credential_request".toList, 95, "e1"⟩]
      [⟨"OTP BATAO".toList, "credential_request".toList, 95, "e2"⟩,
       ⟨[], [], 0, ""⟩,
       ⟨"kyc update karo".toList, "kyc".toList, 75, "e3"⟩]).1⟩

/-- Witness for C7 on a concrete text, with two different gateway stubs. -/
theorem c7_determinism_witness :
    classify (fun _ => ⟨50, [], Severity.safe⟩) false (fun _ => some 90)
        ("otp batao".toList)
      = classify (fun _ => ⟨50, [], Severity.safe⟩) false (fun _ => none)
        ("otp batao".toList) ∧
    useFallbackDetection ("otp batao".toList)
      = useFallbackDetection ("otp batao".toList) :=
  c7_determinism (fun _ => ⟨50, [], Severity.safe⟩) (fun _ => some 90)
    (fun _ => none) ("otp batao".toList) ("otp batao".toList) rfl
